import Mathlib

/-!
Verification of the in-memory search core of the typesense engine
(`src/index.cpp` / `include/index.h`) against its specification.

The development shallowly embeds the relevant C++ routines: machine
integers are modelled as `Nat`/`Int` with explicit two's-complement
conversions, JSON documents as an inductive value type, and external
collaborators (ART, tokenizer, hash, Topster) as parameters or
spec-modelled definitions, each marked as such in its doc comment.
-/

namespace Typesense

/-! ## C1 : bounded typo cost (`Index::get_bounded_typo_cost`) -/

/-- Translation of `Index::get_bounded_typo_cost(max_cost, token_len)`:
`bounded_cost = max_cost; if(token_len > 0 && max_cost >= token_len &&
(token_len == 1 || token_len == 2)) bounded_cost = token_len - 1;`. -/
def get_bounded_typo_cost (max_cost token_len : Nat) : Nat :=
  if 0 < token_len ∧ token_len ≤ max_cost ∧ (token_len = 1 ∨ token_len = 2) then
    token_len - 1
  else
    max_cost

/-- C1: the allowed typo cost is capped by token length: for `token_len ∈ {1, 2}`
with `max_cost ≥ token_len` the bounded cost is `token_len - 1` (so a
single-character token with `num_typos = 2` only ever searches at cost 0);
in every other case the bounded cost is `max_cost` itself. -/
theorem get_bounded_typo_cost_spec (max_cost token_len : Nat) :
    get_bounded_typo_cost max_cost token_len =
      if (token_len = 1 ∨ token_len = 2) ∧ token_len ≤ max_cost then
        token_len - 1
      else
        max_cost := by
  unfold get_bounded_typo_cost
  split_ifs <;> omega

/-! ## C8 : order-preserving float encoding (`Index::float_to_in64_t`)

A single-precision float is represented by its 32-bit pattern
(a `Nat` below `2 ^ 32`); sign bit 31, magnitude in the low 31 bits. -/

/-- Two's-complement reading of a 32-bit pattern, i.e. the `int32_t` that
`memcpy(&i, &f, sizeof i)` produces from the float's bits. -/
def int32OfBits (b : Nat) : Int :=
  if b < 2 ^ 31 then (b : Int) else (b : Int) - 2 ^ 32

/-- The 32-bit pattern of an `int32_t` value (two's complement). -/
def bitsOfInt32 (i : Int) : Nat := (i % 2 ^ 32).toNat

/-- Translation of `Index::float_to_in64_t(float f)`: reads the float's bits as `int32_t i`;
`if (i < 0) i ^= INT32_MAX;` and returns `i` widened to `int64_t`.
The XOR acts on the two's-complement bit pattern. -/
def float_to_in64_t (b : Nat) : Int :=
  let i := int32OfBits b
  if i < 0 then int32OfBits (bitsOfInt32 i ^^^ (2 ^ 31 - 1)) else i

/-- IEEE-754 semantics of the environment: NaN patterns are those whose
magnitude exceeds `0x7F800000` (exponent all ones, mantissa nonzero). -/
def floatIsNaN (b : Nat) : Bool := decide (2 ^ 23 * 255 < b % 2 ^ 31)

/-- IEEE-754 semantics of the environment: the `<=` comparison on non-NaN
single-precision patterns. Same-sign values compare by magnitude (reversed
for negatives); a negative value is `<=` any non-negative one; a
non-negative value is `<=` a negative one only when both are zeros. -/
def floatLe (a b : Nat) : Bool :=
  if 2 ^ 31 ≤ a then
    if 2 ^ 31 ≤ b then decide (b % 2 ^ 31 ≤ a % 2 ^ 31) else true
  else
    if 2 ^ 31 ≤ b then decide (a % 2 ^ 31 = 0 ∧ b % 2 ^ 31 = 0)
    else decide (a % 2 ^ 31 ≤ b % 2 ^ 31)

theorem xor_two_pow_sub_one_eq {n x : Nat} (h : x < 2 ^ n) :
    x ^^^ (2 ^ n - 1) = 2 ^ n - 1 - x := by
  apply Nat.eq_of_testBit_eq
  intro i
  rw [Nat.testBit_xor, Nat.testBit_two_pow_sub_one]
  have h1 : 2 ^ n - 1 - x = 2 ^ n - (x + 1) := by omega
  rw [h1, Nat.testBit_two_pow_sub_succ h]
  by_cases hi : i < n
  · simp [hi]
  · have hx : x < 2 ^ i :=
      lt_of_lt_of_le h (Nat.pow_le_pow_right (by norm_num) (by omega))
    simp [hi, Nat.testBit_lt_two_pow hx]

theorem two_pow_add_xor_low {n m mask : Nat} (hm : m < 2 ^ n) (hmask : mask < 2 ^ n) :
    (2 ^ n + m) ^^^ mask = 2 ^ n + (m ^^^ mask) := by
  apply Nat.eq_of_testBit_eq
  intro i
  rw [Nat.testBit_xor]
  rcases lt_trichotomy i n with hi | hi | hi
  · rw [Nat.testBit_two_pow_add_gt hi, Nat.testBit_two_pow_add_gt hi, Nat.testBit_xor]
  · subst hi
    rw [Nat.testBit_two_pow_add_eq, Nat.testBit_two_pow_add_eq,
      Nat.testBit_lt_two_pow hm, Nat.testBit_lt_two_pow hmask,
      Nat.testBit_lt_two_pow (Nat.xor_lt_two_pow hm hmask)]
    rfl
  · have h2 : (2 : Nat) ^ (n + 1) ≤ 2 ^ i := Nat.pow_le_pow_right (by norm_num) hi
    have hlo : 2 ^ n + m < 2 ^ i := by
      have : 2 ^ n + m < 2 ^ (n + 1) := by
        have := Nat.pow_succ 2 n
        omega
      omega
    have hlo2 : 2 ^ n + (m ^^^ mask) < 2 ^ i := by
      have hx : m ^^^ mask < 2 ^ n := Nat.xor_lt_two_pow hm hmask
      have : 2 ^ n + (m ^^^ mask) < 2 ^ (n + 1) := by
        have := Nat.pow_succ 2 n
        omega
      omega
    have hmask2 : mask < 2 ^ i := by
      have hn : (2 : Nat) ^ n ≤ 2 ^ i := Nat.pow_le_pow_right (by norm_num) (by omega)
      omega
    rw [Nat.testBit_lt_two_pow hlo, Nat.testBit_lt_two_pow hlo2,
      Nat.testBit_lt_two_pow hmask2]
    rfl

/-- Closed form of `float_to_in64_t`: non-negative patterns map to themselves,
negative patterns `2^31 + m` map to `-1 - m`. -/
theorem float_to_in64_t_eq (b : Nat) (hb : b < 2 ^ 32) :
    float_to_in64_t b =
      if b < 2 ^ 31 then (b : Int) else -1 - ((b : Int) - 2 ^ 31) := by
  unfold float_to_in64_t int32OfBits bitsOfInt32
  by_cases hpos : b < 2 ^ 31
  · simp only [if_pos hpos]
    have h0 : (0 : Int) ≤ (b : Int) := Int.natCast_nonneg b
    simp [not_lt.mpr h0]
  · simp only [if_neg hpos]
    have hneg : (b : Int) - 2 ^ 32 < 0 := by
      have : (b : Int) < 2 ^ 32 := by exact_mod_cast hb
      omega
    simp only [if_pos hneg]
    have hmod : ((b : Int) - 2 ^ 32) % 2 ^ 32 = (b : Int) := by
      have hb' : (b : Int) < 2 ^ 32 := by exact_mod_cast hb
      have h0 : (0 : Int) ≤ (b : Int) := Int.natCast_nonneg b
      omega
    rw [hmod]
    have htn : ((b : Int)).toNat = b := Int.toNat_natCast b
    rw [htn]
    have hsplit : b = 2 ^ 31 + (b - 2 ^ 31) := by omega
    have hm : b - 2 ^ 31 < 2 ^ 31 := by omega
    rw [hsplit, two_pow_add_xor_low hm (by norm_num),
      xor_two_pow_sub_one_eq hm]
    have hge : ¬ (2 ^ 31 + (2 ^ 31 - 1 - (b - 2 ^ 31)) < 2 ^ 31) := by omega
    simp only [if_neg hge]
    push_cast
    omega

/-- Fragment of `Index::index_in_memory` (numeric sort-index update): integers
are stored by value, floats through `float_to_in64_t` of their bit pattern,
and bools as `0`/`1`, so every recorded sort value is a 64-bit integer. -/
inductive SortVal where
  | ival (v : Int)
  | fval (bits : Nat)
  | bval (b : Bool)

/-- The 64-bit integer recorded in `sort_index` for one numeric field value,
as in `Index::index_in_memory`. -/
def sort_index_entry : SortVal → Int
  | .ival v => v
  | .fval bits => float_to_in64_t bits
  | .bval b => if b then 1 else 0

/-- C8 counterexample: the claim `a <= b → float_to_in64_t a <= float_to_in64_t b`
fails at `a = +0.0` (pattern 0) and `b = -0.0` (pattern `2^31`): the two zeros
are equal as floats, yet `+0.0` maps to `0` and `-0.0` maps to `-1`. -/
theorem float_to_in64_t_le_counterexample :
    floatIsNaN 0 = false ∧ floatIsNaN (2 ^ 31) = false ∧
      floatLe 0 (2 ^ 31) = true ∧
      ¬ float_to_in64_t 0 ≤ float_to_in64_t (2 ^ 31) := by
  refine ⟨by decide, by norm_num [floatIsNaN], by norm_num [floatLe], ?_⟩
  rw [float_to_in64_t_eq 0 (by norm_num), float_to_in64_t_eq (2 ^ 31) (by norm_num)]
  norm_num

/-- C8 (amended): excluding NaN patterns and the single pair
`(a, b) = (+0.0, -0.0)` — distinct bit patterns of the equal value zero, which
map to `0` and `-1` respectively — the map `float_to_in64_t` is monotone:
`a <= b` in IEEE-754 order implies `float_to_in64_t a <= float_to_in64_t b`.
Moreover every sort-index value of a float field is recorded through this same
64-bit representation (`sort_index_entry`). -/
theorem float_to_in64_t_order_preserving :
    (∀ a b : Nat, a < 2 ^ 32 → b < 2 ^ 32 →
      floatLe a b = true → ¬ (a = 0 ∧ b = 2 ^ 31) →
      float_to_in64_t a ≤ float_to_in64_t b) ∧
    (∀ bits : Nat, sort_index_entry (.fval bits) = float_to_in64_t bits) := by
  constructor
  · intro a b ha hb hle hz
    rw [float_to_in64_t_eq a ha, float_to_in64_t_eq b hb]
    unfold floatLe at hle
    by_cases hsa : 2 ^ 31 ≤ a <;> by_cases hsb : 2 ^ 31 ≤ b
    · simp only [if_pos hsa, if_pos hsb, decide_eq_true_eq] at hle
      have hma : a % 2 ^ 31 = a - 2 ^ 31 := by omega
      have hmb : b % 2 ^ 31 = b - 2 ^ 31 := by omega
      rw [hma, hmb] at hle
      simp only [if_neg (by omega : ¬ a < 2 ^ 31), if_neg (by omega : ¬ b < 2 ^ 31)]
      have ha' : (a : Int) ≤ 2 ^ 32 := by exact_mod_cast ha.le
      have hba : (b : Int) ≤ (a : Int) := by
        have : b ≤ a := by omega
        exact_mod_cast this
      omega
    · simp only [if_pos hsa, if_neg hsb] at hle
      simp only [if_neg (by omega : ¬ a < 2 ^ 31), if_pos (by omega : b < 2 ^ 31)]
      have h0 : (0 : Int) ≤ (b : Int) := Int.natCast_nonneg b
      have ha' : (0 : Int) ≤ (a : Int) - 2 ^ 31 := by
        have : (2 ^ 31 : Int) ≤ (a : Int) := by exact_mod_cast hsa
        omega
      omega
    · simp only [if_neg hsa, if_pos hsb, decide_eq_true_eq] at hle
      have hma : a % 2 ^ 31 = a := Nat.mod_eq_of_lt (by omega)
      have hmb : b % 2 ^ 31 = b - 2 ^ 31 := by omega
      rw [hma, hmb] at hle
      exact absurd ⟨hle.1, by omega⟩ hz
    · simp only [if_neg hsa, if_neg hsb, decide_eq_true_eq] at hle
      have hma : a % 2 ^ 31 = a := Nat.mod_eq_of_lt (by omega)
      have hmb : b % 2 ^ 31 = b := Nat.mod_eq_of_lt (by omega)
      rw [hma, hmb] at hle
      simp only [if_pos (by omega : a < 2 ^ 31), if_pos (by omega : b < 2 ^ 31)]
      exact_mod_cast hle
  · intro bits
    rfl

/-- Witness for C8's amended theorem at the concrete patterns of `1.0f`
(`0x3F800000`) and `2.0f` (`0x40000000`). -/
theorem float_to_in64_t_order_preserving_witness :
    floatLe 1065353216 1073741824 = true ∧
      float_to_in64_t 1065353216 ≤ float_to_in64_t 1073741824 :=
  ⟨by norm_num [floatLe],
    float_to_in64_t_order_preserving.1 1065353216 1073741824 (by norm_num)
      (by norm_num) (by norm_num [floatLe]) (by norm_num)⟩


/-! ## C3 : token dropping (`Index::search_field`, drop block) -/

/-- The truncated token list built at the end of `Index::search_field` once
`num_tokens_dropped` has been incremented: with `mid_index = len / 2`, for
`num_tokens_dropped <= mid_index` the loop pushes `query_tokens[0 ..= (len - 1)
- num_tokens_dropped]` (drop from the right); otherwise it pushes
`query_tokens[num_tokens_dropped - mid_index ..= len - 1]` (drop from the
left, the full right side retained). -/
def truncate_tokens (query_tokens : List String) (num_tokens_dropped : Nat) : List String :=
  let mid_index := query_tokens.length / 2
  if num_tokens_dropped ≤ mid_index then
    (List.range (query_tokens.length - num_tokens_dropped)).map
      (fun i => query_tokens.getD i "")
  else
    (List.range (query_tokens.length - (num_tokens_dropped - mid_index))).map
      (fun i => query_tokens.getD (num_tokens_dropped - mid_index + i) "")

/-- The value of `Index::DROP_TOKENS_THRESHOLD` (index.h), the declaration
default of `search_field`'s `drop_tokens_threshold` parameter: the drop
recursion at the end of `search_field` passes no threshold arguments, so
every recursed level runs with this value. -/
def DROP_TOKENS_THRESHOLD : Nat := 10

/-- The value of `Index::TYPO_TOKENS_THRESHOLD` (index.h), the declaration
default of `search_field`'s `typo_tokens_threshold` parameter, likewise used
by every recursed level. -/
def TYPO_TOKENS_THRESHOLD : Nat := 100

/-- The token-dropping recursion of `Index::search_field`. One level's
cost-combination loop (stages (a)-(d)) is abstracted by `stage`: given the
level's `query_tokens` and `search_tokens`, it returns the final value of
the function-local accumulator `field_num_results` together with the
query-token list as the loop left it (the loop erases a token from
`query_tokens` when all of that token's costs yield no leaves). The level
returns after its loop when either of ITS thresholds is reached; otherwise,
while `num_tokens_dropped < query_tokens.length`, it drops once more and
recurses — and since the recursive call in the source passes no threshold
arguments, every recursed level runs with the declaration defaults
`DROP_TOKENS_THRESHOLD` and `TYPO_TOKENS_THRESHOLD`, not the caller's
values. Returns the search-token lists attempted, in order; `fuel` bounds
the depth. -/
def search_field_drops (stage : List String → List String → Nat × List String) :
    Nat → Nat → Nat → Nat → List String → List String → List (List String)
  | _, _, 0, _, _, search_tokens => [search_tokens]
  | dropThr, typoThr, fuel + 1, num_tokens_dropped, query_tokens, search_tokens =>
    let res := stage query_tokens search_tokens
    if dropThr ≤ res.1 ∨ typoThr ≤ res.1 then
      [search_tokens]
    else if res.2 ≠ [] ∧ num_tokens_dropped < res.2.length then
      search_tokens ::
        search_field_drops stage DROP_TOKENS_THRESHOLD TYPO_TOKENS_THRESHOLD fuel
          (num_tokens_dropped + 1) res.2
          (truncate_tokens res.2 (num_tokens_dropped + 1))
    else
      [search_tokens]

theorem search_field_drops_zero (stage : List String → List String → Nat × List String)
    (dropThr typoThr d : Nat) (q s : List String) :
    search_field_drops stage dropThr typoThr 0 d q s = [s] := rfl

theorem search_field_drops_succ (stage : List String → List String → Nat × List String)
    (dropThr typoThr fuel d : Nat) (q s : List String) :
    search_field_drops stage dropThr typoThr (fuel + 1) d q s =
      if dropThr ≤ (stage q s).1 ∨ typoThr ≤ (stage q s).1 then [s]
      else if (stage q s).2 ≠ [] ∧ d < (stage q s).2.length then
        s :: search_field_drops stage DROP_TOKENS_THRESHOLD TYPO_TOKENS_THRESHOLD
          fuel (d + 1) (stage q s).2 (truncate_tokens (stage q s).2 (d + 1))
      else [s] := rfl

theorem search_field_drops_ne_nil (stage : List String → List String → Nat × List String)
    (dropThr typoThr fuel d : Nat) (q s : List String) :
    search_field_drops stage dropThr typoThr fuel d q s ≠ [] := by
  cases fuel with
  | zero => simp [search_field_drops_zero]
  | succ n =>
    rw [search_field_drops_succ]
    split_ifs <;> simp

theorem range_map_getD_eq_take (d : String) (q : List String) (n : Nat)
    (h : n ≤ q.length) :
    (List.range n).map (fun i => q.getD i d) = q.take n := by
  apply List.ext_getElem
  · simpa using h
  · intro i h1 h2
    simp only [List.getElem_map, List.getElem_range, List.getElem_take]
    have hi : i < q.length := by
      simp only [List.length_map, List.length_range] at h1
      omega
    rw [List.getD_eq_getElem q d hi]

theorem range_map_getD_eq_drop (d : String) (q : List String) (s : Nat)
    (h : s ≤ q.length) :
    (List.range (q.length - s)).map (fun i => q.getD (s + i) d) = q.drop s := by
  apply List.ext_getElem
  · simp
  · intro i h1 h2
    simp only [List.getElem_map, List.getElem_range, List.getElem_drop]
    have hi : s + i < q.length := by
      simp only [List.length_map, List.length_range] at h1
      omega
    rw [List.getD_eq_getElem q d hi]

/-- C3 counterexample: on a four-token query whose cost loop erases nothing
and finds nothing (count 0, below every threshold at every level),
`search_field` attempts the lists of lengths 4, 3, 2, 3, 2 — after the right
half is exhausted the code keeps the whole right side and drops only from
the left, so the fourth attempt (`["b", "c", "d"]`) is one token longer than
the third (`["a", "b"]`) instead of one shorter, and the process ends while
two tokens (and a below-threshold count) remain. -/
theorem search_field_drops_counterexample :
    search_field_drops (fun q _ => (0, q)) 5 100 10 0
        ["a", "b", "c", "d"] ["a", "b", "c", "d"] =
      [["a", "b", "c", "d"], ["a", "b", "c"], ["a", "b"],
        ["b", "c", "d"], ["c", "d"]] ∧
    ¬ (["b", "c", "d"] : List String).length = (["a", "b"] : List String).length - 1 := by
  constructor
  · rfl
  · decide

/-- C3 (amended): a drop re-runs stages (a)-(d) with `num_tokens_dropped`
incremented by one, truncating the query-token list as the level's cost loop
left it (that loop erases a token whose costs are all exhausted): for
`d <= len / 2` the truncated list is the first `len - d` tokens (dropping
`d` from the right); for `d > len / 2` it is the last `len - (d - len / 2)`
tokens (dropping only from the left with the full right side restored, so
the list does not shrink by one each round). A level stops — returning
without dropping — exactly when its count reaches the level's
`drop_tokens_threshold` OR `typo_tokens_threshold`, or its query-token list
is empty, or `num_tokens_dropped` has reached that list's length; and since
the recursive call passes no threshold arguments, every level after the
first runs with the defaults `DROP_TOKENS_THRESHOLD` (10) and
`TYPO_TOKENS_THRESHOLD` (100) rather than the caller's values. -/
theorem search_field_token_dropping :
    (∀ (q : List String) (d : Nat), 1 ≤ d → d ≤ q.length →
      (d ≤ q.length / 2 → truncate_tokens q d = q.take (q.length - d)) ∧
      (q.length / 2 < d → truncate_tokens q d = q.drop (d - q.length / 2))) ∧
    (∀ (stage : List String → List String → Nat × List String)
        (dropThr typoThr fuel d : Nat) (q s : List String),
      search_field_drops stage dropThr typoThr (fuel + 1) d q s = [s] ↔
        dropThr ≤ (stage q s).1 ∨ typoThr ≤ (stage q s).1 ∨
          (stage q s).2 = [] ∨ (stage q s).2.length ≤ d) ∧
    (∀ (stage : List String → List String → Nat × List String)
        (dropThr typoThr fuel d : Nat) (q s : List String),
      (stage q s).1 < dropThr → (stage q s).1 < typoThr →
      (stage q s).2 ≠ [] → d < (stage q s).2.length →
      search_field_drops stage dropThr typoThr (fuel + 1) d q s =
        s :: search_field_drops stage DROP_TOKENS_THRESHOLD TYPO_TOKENS_THRESHOLD
          fuel (d + 1) (stage q s).2 (truncate_tokens (stage q s).2 (d + 1))) := by
  refine ⟨?_, ?_, ?_⟩
  · intro q d h1 h2
    constructor
    · intro hd
      unfold truncate_tokens
      rw [if_pos hd]
      exact range_map_getD_eq_take "" q _ (by omega)
    · intro hd
      unfold truncate_tokens
      rw [if_neg (by omega)]
      exact range_map_getD_eq_drop "" q _ (by omega)
  · intro stage dropThr typoThr fuel d q s
    rw [search_field_drops_succ]
    split_ifs with h1 h2
    · simp only [true_iff]
      omega
    · have hne := search_field_drops_ne_nil stage DROP_TOKENS_THRESHOLD
        TYPO_TOKENS_THRESHOLD fuel (d + 1) (stage q s).2
        (truncate_tokens (stage q s).2 (d + 1))
      constructor
      · intro hc
        exact absurd (List.cons_eq_cons.mp hc).2 hne
      · intro hc
        rcases hc with hc | hc | hc | hc
        · omega
        · omega
        · exact absurd hc h2.1
        · omega
    · simp only [true_iff]
      push_neg at h2
      by_cases hq : (stage q s).2 = []
      · exact Or.inr (Or.inr (Or.inl hq))
      · exact Or.inr (Or.inr (Or.inr (h2 hq)))
  · intro stage dropThr typoThr fuel d q s hc1 hc2 hq hd
    rw [search_field_drops_succ, if_neg (by omega), if_pos ⟨hq, hd⟩]

/-! ## C9 : array sentinels in the facet entry
(`Index::index_string_array_field` and `Index::facet_token_hash`) -/

/-- The sentinel separating array elements in a facet entry:
`FACET_ARRAY_DELIMETER = std::numeric_limits<uint64_t>::max()`. -/
def FACET_ARRAY_DELIMETER : Nat := 2 ^ 64 - 1

/-- Facet-entry contribution of one array element in
`Index::index_string_array_field`: the hash of every non-empty token the
tokenizer emits for the element (empty tokens are skipped by `continue`),
followed by exactly one `FACET_ARRAY_DELIMETER`. The tokenizer is external
code, so an element is given by its emitted token list; the hash argument is
instantiated with `Index::facet_token_hash` applied to the field — see
`facet_token_hash` below, whose integer branch can hit the sentinel value. -/
def facet_entry_element (hash : String → Nat) (tokens : List String) : List Nat :=
  (tokens.filter (fun t => t ≠ "")).map hash ++ [FACET_ARRAY_DELIMETER]

/-- The facet entry built by `Index::index_string_array_field` for one faceted
array-field value: the per-element contributions appended in array order. -/
def facet_entry_of_array (hash : String → Nat) (elems : List (List String)) : List Nat :=
  elems.foldl (fun acc tokens => acc ++ facet_entry_element hash tokens) []

theorem facet_entry_of_array_eq_flatten (hash : String → Nat) (elems : List (List String)) :
    facet_entry_of_array hash elems = (elems.map (facet_entry_element hash)).flatten := by
  unfold facet_entry_of_array
  suffices h : ∀ acc : List Nat,
      elems.foldl (fun acc tokens => acc ++ facet_entry_element hash tokens) acc =
        acc ++ (elems.map (facet_entry_element hash)).flatten by
    simpa using h []
  induction elems with
  | nil => intro acc; simp
  | cons e es ih =>
    intro acc
    simp [ih, List.append_assoc]

/-- The sentinel count equals the array length exactly under a no-collision
premise: when no token hash equals the delimiter value, each array element
contributes one sentinel. The premise is falsifiable — `facet_token_hash`
(below) maps the integer token "-1" to the sentinel value — which is why C9
is settled as a code bug rather than an invariant. -/
theorem facet_entry_sentinel_count (hash : String → Nat) (elems : List (List String))
    (hh : ∀ tokens ∈ elems, ∀ t ∈ tokens, hash t ≠ FACET_ARRAY_DELIMETER) :
    (facet_entry_of_array hash elems).count FACET_ARRAY_DELIMETER = elems.length := by
  rw [facet_entry_of_array_eq_flatten]
  induction elems with
  | nil => simp
  | cons e es ih =>
    simp only [List.map_cons, List.flatten_cons, List.count_append, List.length_cons]
    rw [ih (fun ts hts t ht => hh ts (List.mem_cons_of_mem e hts) t ht)]
    have hzero : ((e.filter (fun t => t ≠ "")).map hash).count FACET_ARRAY_DELIMETER = 0 := by
      rw [List.count_eq_zero]
      intro hmem
      rcases List.mem_map.mp hmem with ⟨t, htmem, hteq⟩
      exact hh e (List.mem_cons_self e es) t (List.mem_of_mem_filter htmem) hteq
    unfold facet_entry_element
    rw [List.count_append, hzero]
    simp [FACET_ARRAY_DELIMETER]
    omega


/-- Witness for C3's amended theorem at concrete inputs: a right-phase
truncation and a stopping invocation. -/
theorem search_field_token_dropping_witness :
    truncate_tokens ["a", "b", "c"] 1 = ["a", "b"] ∧
      search_field_drops (fun q _ => (3, q)) 2 7 4 0 ["a"] ["a"] = [["a"]] := by
  constructor
  · have h := (search_field_token_dropping.1 ["a", "b", "c"] 1 (by norm_num)
      (by norm_num)).1 (by norm_num)
    simpa using h
  · exact (search_field_token_dropping.2.1 (fun q _ => (3, q)) 2 7 3 0
      ["a"] ["a"]).mpr (Or.inl (by norm_num))

/-! ## C2 : string equality filters (`Index::do_filtering`, string branch) -/

/-- A document as seen by one faceted non-array string field: the sequence id
and the token stream the tokenizer emits for the field value (the tokenizer
is external code, so values are given pre-tokenized). -/
structure SDoc where
  id : Nat
  tokens : List String

/-- Modelled from the spec: the field's ART maps each token to the posting of
the documents containing it (`art.cpp` is outside `src/`); `leaf_ids` is the
uncompressed sorted id list of the token's leaf, empty when the leaf is
absent. -/
def leaf_ids (docs : List SDoc) (tok : String) : List Nat :=
  (docs.filter (fun d => decide (tok ∈ d.tokens))).map (fun d => d.id)

/-- Whether `art_search` finds a leaf for the token (some document holds it). -/
def token_has_leaf (docs : List SDoc) (tok : String) : Bool :=
  !(leaf_ids docs tok).isEmpty

/-- Number of hashes in the document's facet entry for this (non-array
string) field: `Index::index_string_field` pushes one hash per emitted
token, so the entry length is the token count. Absent documents give 0. -/
def doc_facet_len (docs : List SDoc) (sid : Nat) : Nat :=
  ((docs.find? (fun d => d.id = sid)).map (fun d => d.tokens.length)).getD 0

/-- The string `EQUALS` filter branch of `Index::do_filtering` for one filter
value on a faceted non-array string field: tokens without a leaf are skipped
(`continue`); the present tokens' postings are intersected (`and_scalar`);
then the exact-match pass keeps a document iff `query_suggestion.size() ==
fvalues.size()`, i.e. iff the number of present filter tokens equals the
length of the document's facet entry. -/
def eq_str_filter_ids (docs : List SDoc) (filter_value_tokens : List String) : List Nat :=
  let present := filter_value_tokens.filter (fun t => token_has_leaf docs t)
  match present with
  | [] => []
  | t :: ts =>
    let strt_ids := ts.foldl
      (fun acc tok => acc.filter (fun x => decide (x ∈ leaf_ids docs tok)))
      (leaf_ids docs t)
    strt_ids.filter (fun sid => doc_facet_len docs sid = present.length)

/-- Order-sensitive combined hash over a token sequence, as the facet engine
computes it: `combined *= 1779033703 + 2*hash(t_i)*(i+1)` in 64-bit
arithmetic, starting from 1. -/
def combined_hash (hash : String → Nat) (tokens : List String) : Nat :=
  tokens.enum.foldl
    (fun acc p => acc * (1779033703 + 2 * hash p.2 * (p.1 + 1)) % 2 ^ 64) 1

/-- The filter semantics C2 claims (built from the spec's words, for
refutation): keep a document iff it contains every token of the filter value
and the combined hash of its tokenization equals that of the filter value. -/
def eq_str_filter_claimed (hash : String → Nat) (docs : List SDoc)
    (filter_value_tokens : List String) : List Nat :=
  (docs.filter (fun d =>
    filter_value_tokens.all (fun t => decide (t ∈ d.tokens)) &&
      combined_hash hash d.tokens == combined_hash hash filter_value_tokens)).map
    (fun d => d.id)

/-- A concrete 64-bit string hash assignment used for the C2 counterexample
(the real `StringUtils::hash_wy` is external; the spec leaves it
unspecified, so any stable assignment instantiates it). -/
def hash0 (t : String) : Nat := if t = "hello" then 1 else 2

/-- C2 counterexample: for a non-array faceted string field the code checks
only the token COUNT (`query_suggestion.size() == fvalues.size()`), never the
facet hash: the document `["world", "hello"]` passes the `=` filter
`"hello world"` although its combined facet hash differs from the filter
value's, so hash-equality (exact tokenization match) is not enforced. -/
theorem eq_str_filter_counterexample :
    0 ∈ eq_str_filter_ids [⟨0, ["world", "hello"]⟩] ["hello", "world"] ∧
      combined_hash hash0 ["world", "hello"] ≠
        combined_hash hash0 ["hello", "world"] ∧
      0 ∉ eq_str_filter_claimed hash0 [⟨0, ["world", "hello"]⟩]
        ["hello", "world"] := by
  refine ⟨by decide, by decide, by decide⟩

theorem mem_foldl_filter (docs : List SDoc) (ts : List String) (acc : List Nat)
    (sid : Nat) :
    sid ∈ ts.foldl
        (fun acc tok => acc.filter (fun x => decide (x ∈ leaf_ids docs tok))) acc ↔
      sid ∈ acc ∧ ∀ tok ∈ ts, sid ∈ leaf_ids docs tok := by
  induction ts generalizing acc with
  | nil => simp
  | cons t ts ih =>
    simp only [List.foldl_cons]
    rw [ih]
    simp only [List.mem_filter, decide_eq_true_eq, List.forall_mem_cons]
    tauto

theorem mem_leaf_ids (docs : List SDoc) (tok : String) (sid : Nat) :
    sid ∈ leaf_ids docs tok ↔ ∃ d ∈ docs, d.id = sid ∧ tok ∈ d.tokens := by
  simp only [leaf_ids, List.mem_map, List.mem_filter, decide_eq_true_eq]
  tauto

theorem sdoc_eq_of_id_eq (docs : List SDoc)
    (hnodup : (docs.map (fun d => d.id)).Nodup) :
    ∀ d ∈ docs, ∀ d' ∈ docs, d.id = d'.id → d = d' := by
  induction docs with
  | nil => intro d hd; cases hd
  | cons a as ih =>
    simp only [List.map_cons, List.nodup_cons] at hnodup
    have hna : ∀ x ∈ as, ¬ a.id = x.id := by
      intro x hx he
      exact hnodup.1 (by rw [he]; exact List.mem_map_of_mem (fun d => d.id) hx)
    intro d hd d' hd' hid
    rcases List.mem_cons.mp hd with h1 | h1
    · rcases List.mem_cons.mp hd' with h2 | h2
      · rw [h1, h2]
      · rw [h1] at hid
        exact absurd hid (hna d' h2)
    · rcases List.mem_cons.mp hd' with h2 | h2
      · rw [h2] at hid
        exact absurd hid.symm (hna d h1)
      · exact ih hnodup.2 d h1 d' h2 hid

theorem doc_facet_len_eq (docs : List SDoc)
    (hnodup : (docs.map (fun d => d.id)).Nodup) (d : SDoc) (hd : d ∈ docs) :
    doc_facet_len docs d.id = d.tokens.length := by
  induction docs with
  | nil => cases hd
  | cons a as ih =>
    simp only [List.map_cons, List.nodup_cons] at hnodup
    rcases List.mem_cons.mp hd with rfl | hmem
    · unfold doc_facet_len
      rw [List.find?_cons_of_pos _ (by simp)]
      rfl
    · have hid : ¬ (a.id = d.id) := fun h =>
        hnodup.1 (h ▸ List.mem_map_of_mem (fun x => x.id) hmem)
      unfold doc_facet_len
      rw [List.find?_cons_of_neg _ (by simpa using hid)]
      exact ih hnodup.2 hmem

/-- C2 (amended): for a non-array faceted string field, the string `=` filter
keeps a document iff (i) at least one filter token is present in the index,
(ii) the document carries every filter token that is present in the index
(tokens without a leaf are skipped rather than failing the filter), and
(iii) the document's facet-entry length — its token count — equals the
number of index-present filter tokens. The facet hash itself is never
compared for non-array fields. -/
theorem eq_str_filter_spec (docs : List SDoc) (ftoks : List String)
    (hnodup : (docs.map (fun d => d.id)).Nodup) (sid : Nat) :
    sid ∈ eq_str_filter_ids docs ftoks ↔
      (ftoks.filter (fun t => token_has_leaf docs t) ≠ [] ∧
        ∃ d ∈ docs, d.id = sid ∧
          (∀ t ∈ ftoks, token_has_leaf docs t → t ∈ d.tokens) ∧
          d.tokens.length = (ftoks.filter (fun t => token_has_leaf docs t)).length) := by
  cases hp : ftoks.filter (fun t => token_has_leaf docs t) with
  | nil =>
    simp only [eq_str_filter_ids, hp]
    simp
  | cons t ts =>
    simp only [eq_str_filter_ids, hp]
    rw [List.mem_filter, mem_foldl_filter]
    constructor
    · rintro ⟨⟨hmt, hrest⟩, hlen⟩
      refine ⟨by simp, ?_⟩
      rcases (mem_leaf_ids docs t sid).mp hmt with ⟨d, hd, hdid, _⟩
      refine ⟨d, hd, hdid, ?_, ?_⟩
      · intro tok htok hleaf
        have hmem : tok ∈ t :: ts := by
          rw [← hp]
          exact List.mem_filter.mpr ⟨htok, hleaf⟩
        have hsid : sid ∈ leaf_ids docs tok := by
          rcases List.mem_cons.mp hmem with rfl | hmem'
          · exact hmt
          · exact hrest tok hmem'
        rcases (mem_leaf_ids docs tok sid).mp hsid with ⟨d', hd', hdid', htokmem⟩
        have : d = d' := sdoc_eq_of_id_eq docs hnodup d hd d' hd' (by rw [hdid, hdid'])
        rw [this]
        exact htokmem
      · have := doc_facet_len_eq docs hnodup d hd
        rw [hdid] at this
        rw [decide_eq_true_eq] at hlen
        omega
    · rintro ⟨-, d, hd, hdid, hall, hlen⟩
      have hmemleaf : ∀ tok ∈ t :: ts, sid ∈ leaf_ids docs tok := by
        intro tok hmem
        have : tok ∈ ftoks.filter (fun t => token_has_leaf docs t) := hp ▸ hmem
        rcases List.mem_filter.mp this with ⟨htok, hleaf⟩
        exact (mem_leaf_ids docs tok sid).mpr ⟨d, hd, hdid, hall tok htok hleaf⟩
      refine ⟨⟨hmemleaf t (List.mem_cons_self t ts),
        fun tok hm => hmemleaf tok (List.mem_cons_of_mem t hm)⟩, ?_⟩
      rw [decide_eq_true_eq]
      have := doc_facet_len_eq docs hnodup d hd
      rw [hdid] at this
      omega

/-- Witness for C2's amended theorem at a concrete index of two documents. -/
theorem eq_str_filter_spec_witness :
    0 ∈ eq_str_filter_ids [⟨0, ["red", "shirt"]⟩, ⟨1, ["red"]⟩] ["red", "shirt"] :=
  (eq_str_filter_spec [⟨0, ["red", "shirt"]⟩, ⟨1, ["red"]⟩] ["red", "shirt"]
    (by decide) 0).mpr (by decide)

/-! ## JSON documents and the schema (validation, update scrubbing, batching) -/

/-- JSON values as `Index` code sees them (`nlohmann::json`): numbers carry an
integer flag mirroring `is_number_integer` vs `is_number_float`; the numeric
payload is an integer model of the value, enough for the bound and equality
comparisons the embedded routines perform. -/
inductive JVal where
  | jstr (s : String)
  | jnum (isInt : Bool) (v : Int)
  | jbool (b : Bool)
  | jarr (elems : List JVal)

def JVal.is_string : JVal → Bool
  | .jstr _ => true
  | _ => false

def JVal.is_number_integer : JVal → Bool
  | .jnum true _ => true
  | _ => false

def JVal.is_number_float : JVal → Bool
  | .jnum false _ => true
  | _ => false

def JVal.is_number : JVal → Bool
  | .jnum _ _ => true
  | _ => false

def JVal.is_boolean : JVal → Bool
  | .jbool _ => true
  | _ => false

def JVal.is_array : JVal → Bool
  | .jarr _ => true
  | _ => false

def JVal.numVal : JVal → Int
  | .jnum _ v => v
  | _ => 0

def JVal.arrElems : JVal → List JVal
  | .jarr xs => xs
  | _ => []

/-- A JSON object: an association list field-name → value (keys unique in
every use below). -/
abbrev JDoc := List (String × JVal)

def JDoc.get (doc : JDoc) (f : String) : Option JVal :=
  (doc.find? (fun p => p.1 = f)).map (fun p => p.2)

def JDoc.hasField (doc : JDoc) (f : String) : Bool := (JDoc.get doc f).isSome

/-- Key removal, `json::erase(field)`. -/
def JDoc.eraseField (doc : JDoc) (f : String) : JDoc :=
  doc.filter (fun p => p.1 ≠ f)

/-- Replace the value stored under an existing key. -/
def JDoc.setField (doc : JDoc) (f : String) (v : JVal) : JDoc :=
  doc.map (fun p => if p.1 = f then (p.1, v) else p)

/-- The declared field types of the schema (`field_types`). -/
inductive FieldType where
  | STRING
  | INT32
  | INT64
  | FLOAT
  | BOOL
  | STRING_ARRAY
  | INT32_ARRAY
  | INT64_ARRAY
  | FLOAT_ARRAY
  | BOOL_ARRAY
deriving DecidableEq

/-- A schema field (`struct field`, from its use in `index.cpp`): name,
declared type, facet and optional flags. -/
structure Field where
  name : String
  type : FieldType
  facet : Bool
  optional : Bool
deriving DecidableEq

def FieldType.isArrayType : FieldType → Bool
  | .STRING_ARRAY | .INT32_ARRAY | .INT64_ARRAY | .FLOAT_ARRAY | .BOOL_ARRAY => true
  | _ => false

/-! ## C10 : array validation inspects only the first element
(`Index::validate_index_in_memory`) -/

/-- The per-field type check of `Index::validate_index_in_memory`: for every
array type only `is_array` and — when the array is non-empty — the type of
element 0 are consulted; an `int32` value must additionally not exceed
`INT32_MAX` (no lower bound is checked, as in the source). -/
def validate_field_type (v : JVal) (t : FieldType) : Bool :=
  match t with
  | .STRING => v.is_string
  | .INT32 => v.is_number_integer && decide (v.numVal ≤ 2147483647)
  | .INT64 => v.is_number_integer
  | .FLOAT => v.is_number
  | .BOOL => v.is_boolean
  | .STRING_ARRAY =>
    v.is_array && (v.arrElems.isEmpty || (v.arrElems.headD (.jstr "")).is_string)
  | .INT32_ARRAY =>
    v.is_array &&
      (v.arrElems.isEmpty || (v.arrElems.headD (.jstr "")).is_number_integer)
  | .INT64_ARRAY =>
    v.is_array &&
      (v.arrElems.isEmpty || (v.arrElems.headD (.jstr "")).is_number_integer)
  | .FLOAT_ARRAY =>
    v.is_array && (v.arrElems.isEmpty || (v.arrElems.headD (.jstr "")).is_number)
  | .BOOL_ARRAY =>
    v.is_array && (v.arrElems.isEmpty || (v.arrElems.headD (.jstr "")).is_boolean)

/-- The schema loop of `Index::validate_index_in_memory`: missing fields are
skipped when optional or updating, otherwise an error; present fields get
the per-type check; the first failure is returned. -/
def validate_fields (doc : JDoc) (is_update : Bool) : List Field → Except Nat Unit
  | [] => .ok ()
  | fld :: rest =>
    if (fld.optional || is_update) && !(JDoc.hasField doc fld.name) then
      validate_fields doc is_update rest
    else if !(JDoc.hasField doc fld.name) then
      .error 400
    else if !(validate_field_type ((JDoc.get doc fld.name).getD (.jstr "")) fld.type) then
      .error 400
    else
      validate_fields doc is_update rest

/-- Model of `FLT_MAX` for the integer payload of the numeric model: the
exact bound is irrelevant to every claim (only that some fixed bound is
checked for a single-float default sorting field). -/
def FLT_MAX_MODEL : Int := 2 ^ 128

/-- Translation of `Index::validate_index_in_memory`: the default-sorting-field checks
followed by the per-field schema loop. -/
def validate_index_in_memory (doc : JDoc) (default_sorting_field : String)
    (search_schema : List Field) (is_update : Bool) : Except Nat Unit :=
  let has_default := JDoc.hasField doc default_sorting_field
  let dsv := (JDoc.get doc default_sorting_field).getD (.jstr "")
  if !has_default && !is_update then
    .error 400
  else if has_default && !dsv.is_number_integer && !dsv.is_number_float then
    .error 400
  else if has_default &&
      ((search_schema.find? (fun fl => fl.name = default_sorting_field)).map
        (fun fl => decide (fl.type = FieldType.FLOAT))).getD false &&
      decide (FLT_MAX_MODEL < dsv.numVal) then
    .error 400
  else
    validate_fields doc is_update search_schema

theorem validate_field_type_arr_tail (x : JVal) (rest rest' : List JVal)
    (t : FieldType) :
    validate_field_type (.jarr (x :: rest)) t =
      validate_field_type (.jarr (x :: rest')) t := by
  cases t <;> rfl

theorem JDoc.get_cons (q : String × JVal) (ps : JDoc) (g : String) :
    JDoc.get (q :: ps) g = if q.1 = g then some q.2 else JDoc.get ps g := by
  unfold JDoc.get
  by_cases h : q.1 = g
  · rw [List.find?_cons_of_pos _ (by simpa using h), if_pos h]
    rfl
  · rw [List.find?_cons_of_neg _ (by simpa using h), if_neg h]

theorem JDoc.get_setField (doc : JDoc) (f g : String) (v : JVal) :
    JDoc.get (JDoc.setField doc f v) g =
      if g = f then (JDoc.get doc f).map (fun _ => v) else JDoc.get doc g := by
  induction doc with
  | nil => simp [JDoc.get, JDoc.setField]
  | cons p ps ih =>
    simp only [JDoc.setField, List.map_cons]
    by_cases hpf : p.1 = f
    · by_cases hpg : p.1 = g
      · have hgf : g = f := by rw [← hpg, hpf]
        rw [if_pos hpf, JDoc.get_cons, if_pos hpg, if_pos hgf, JDoc.get_cons,
          if_pos hpf]
        rfl
      · have hgf : ¬ g = f := fun h => hpg (by rw [hpf, h])
        rw [if_pos hpf, JDoc.get_cons, if_neg hpg]
        show JDoc.get (JDoc.setField ps f v) g = _
        rw [ih, if_neg hgf, if_neg hgf, JDoc.get_cons, if_neg hpg]
    · by_cases hpg : p.1 = g
      · have hgf : ¬ g = f := fun h => hpf (by rw [hpg, h])
        rw [if_neg hpf, JDoc.get_cons, if_pos hpg, if_neg hgf, JDoc.get_cons,
          if_pos hpg]
      · rw [if_neg hpf, JDoc.get_cons, if_neg hpg]
        show JDoc.get (JDoc.setField ps f v) g = _
        rw [ih]
        by_cases hgf : g = f
        · rw [if_pos hgf, if_pos hgf, JDoc.get_cons, if_neg hpf]
        · rw [if_neg hgf, if_neg hgf, JDoc.get_cons, if_neg hpg]

theorem validate_fields_congr (doc doc' : JDoc) (is_update : Bool)
    (schema : List Field)
    (h : ∀ fld ∈ schema,
      JDoc.hasField doc' fld.name = JDoc.hasField doc fld.name ∧
      validate_field_type ((JDoc.get doc' fld.name).getD (.jstr "")) fld.type =
        validate_field_type ((JDoc.get doc fld.name).getD (.jstr "")) fld.type) :
    validate_fields doc' is_update schema = validate_fields doc is_update schema := by
  induction schema with
  | nil => rfl
  | cons fld rest ih =>
    have hfld := h fld (List.mem_cons_self fld rest)
    have hrest := ih (fun fl hfl => h fl (List.mem_cons_of_mem fld hfl))
    unfold validate_fields
    rw [hfld.1, hfld.2, hrest]

/-- C10: `Index::validate_index_in_memory` inspects only the first element of
an array-typed field value: replacing the tail of a non-empty array value by
elements of any types never changes the validation outcome (and an empty
array always passes the array check), so a heterogeneous array such as
`["a", 1]` for a string-array field is accepted — the second conjunct checks
this concretely on the schema `{title: string[], points: int32}` with default
sorting field `points`. -/
theorem validate_array_first_element_only :
    (∀ (doc : JDoc) (dsf : String) (schema : List Field) (is_update : Bool)
        (f : String) (x : JVal) (rest rest' : List JVal),
      JDoc.get doc f = some (.jarr (x :: rest)) →
      validate_index_in_memory (JDoc.setField doc f (.jarr (x :: rest')))
          dsf schema is_update =
        validate_index_in_memory doc dsf schema is_update) ∧
    validate_index_in_memory
        [("title", .jarr [.jstr "a", .jnum true 1]), ("points", .jnum true 10)]
        "points"
        [⟨"title", .STRING_ARRAY, false, false⟩, ⟨"points", .INT32, false, false⟩]
        false = .ok () := by
  constructor
  · intro doc dsf schema is_update f x rest rest' hf
    have hget : ∀ g, JDoc.get (JDoc.setField doc f (.jarr (x :: rest'))) g =
        if g = f then some (.jarr (x :: rest')) else JDoc.get doc g := by
      intro g
      rw [JDoc.get_setField]
      by_cases h : g = f
      · rw [if_pos h, if_pos h, hf]
        rfl
      · rw [if_neg h, if_neg h]
    have hfields : validate_fields (JDoc.setField doc f (.jarr (x :: rest')))
        is_update schema = validate_fields doc is_update schema := by
      apply validate_fields_congr
      intro fld _
      by_cases h : fld.name = f
      · constructor
        · unfold JDoc.hasField
          rw [hget fld.name, if_pos h, h, hf]
          rfl
        · rw [hget fld.name, if_pos h, h, hf]
          exact validate_field_type_arr_tail x rest' rest fld.type
      · constructor
        · unfold JDoc.hasField
          rw [hget fld.name, if_neg h]
        · rw [hget fld.name, if_neg h]
    by_cases hdf : dsf = f
    · subst hdf
      simp [validate_index_in_memory, JDoc.hasField, hget dsf, hf,
        JVal.is_number_integer, JVal.is_number_float]
    · have h1 : JDoc.get (JDoc.setField doc f (.jarr (x :: rest'))) dsf =
          JDoc.get doc dsf := by
        rw [hget dsf, if_neg hdf]
      unfold validate_index_in_memory JDoc.hasField
      rw [h1, hfields]
  · rfl

/-- Witness for C10's tail-irrelevance at a concrete document, replacing the
heterogeneous tail `[1]` by `[false]`. -/
theorem validate_array_first_element_only_witness :
    validate_index_in_memory
        (JDoc.setField
          [("title", .jarr [.jstr "a", .jnum true 1]), ("points", .jnum true 10)]
          "title" (.jarr [.jstr "a", .jbool false]))
        "points"
        [⟨"title", .STRING_ARRAY, false, false⟩, ⟨"points", .INT32, false, false⟩]
        false =
      validate_index_in_memory
        [("title", .jarr [.jstr "a", .jnum true 1]), ("points", .jnum true 10)]
        "points"
        [⟨"title", .STRING_ARRAY, false, false⟩, ⟨"points", .INT32, false, false⟩]
        false :=
  validate_array_first_element_only.1
    [("title", .jarr [.jstr "a", .jnum true 1]), ("points", .jnum true 10)]
    "points"
    [⟨"title", .STRING_ARRAY, false, false⟩, ⟨"points", .INT32, false, false⟩]
    false "title" (.jstr "a") [.jnum true 1] [.jbool false] rfl

/-! ## C7 : update scrubbing (`Index::scrub_reindex_doc`) -/

/-- Translation of `Index::_arrays_match`: two value vectors match iff they have the same
length and agree pairwise. -/
def arrays_match {α : Type} [DecidableEq α] (reindex_vals old_vals : List α) : Bool :=
  if old_vals.length ≠ reindex_vals.length then false
  else (reindex_vals.zip old_vals).all (fun p => decide (p.1 = p.2))

theorem zip_all_eq {α : Type} [DecidableEq α] :
    ∀ (a b : List α), b.length = a.length →
      (((a.zip b).all (fun p => decide (p.1 = p.2)) = true) ↔ a = b) := by
  intro a
  induction a with
  | nil =>
    intro b hb
    cases b with
    | nil => simp
    | cons y ys => simp at hb
  | cons x xs ih =>
    intro b hb
    cases b with
    | nil => simp at hb
    | cons y ys =>
      simp only [List.zip_cons_cons, List.all_cons, Bool.and_eq_true,
        decide_eq_true_eq]
      rw [ih ys (by simpa using hb)]
      constructor
      · rintro ⟨h1, h2⟩
        rw [h1, h2]
      · intro h
        injection h with h1 h2
        exact ⟨h1, h2⟩

theorem arrays_match_iff {α : Type} [DecidableEq α] (a b : List α) :
    arrays_match a b = true ↔ a = b := by
  unfold arrays_match
  split_ifs with h
  · simp only [Bool.false_eq_true, false_iff]
    intro he
    rw [he] at h
    exact h rfl
  · exact zip_all_eq a b (not_ne_iff.mp h)

def FieldType.isStringType : FieldType → Bool
  | .STRING | .STRING_ARRAY => true
  | _ => false

def JVal.strVal : JVal → String
  | .jstr s => s
  | _ => ""

/-- Numeric payload of a scalar value (`get<int32_t>` / `get<int64_t>` /
`get<float>` / `get<bool>` on the numeric model). -/
def JVal.asNum : JVal → Int
  | .jnum _ v => v
  | .jbool b => if b then 1 else 0
  | _ => 0

/-- Numeric payload vector of an array value (`get<std::vector<T>>`). -/
def JVal.numElems : JVal → List Int
  | .jarr xs => xs.map JVal.asNum
  | _ => []

/-- Translation of `Index::tokenize_doc_field`: a STRING value is tokenized; a STRING_ARRAY
value has every element tokenized, the token streams appended; other types
yield no tokens. The tokenizer is external code, passed as `tok`. -/
def tokenize_doc_field (tok : String → List String) (doc : JDoc) (fld : Field) :
    List String :=
  match fld.type with
  | .STRING => tok ((JDoc.get doc fld.name).getD (.jstr "")).strVal
  | .STRING_ARRAY =>
    (((JDoc.get doc fld.name).getD (.jarr [])).arrElems.map
      (fun v => tok v.strVal)).flatten
  | _ => []

/-- The extraction feeding `_arrays_match` in the numeric branches of
`Index::scrub_reindex_doc`: a single value is wrapped in a one-element
vector, an array value yields its element vector (the int32/int64/float/bool
branches all perform this same comparison on the numeric model). -/
def numeric_vals (doc : JDoc) (fld : Field) : List Int :=
  let v := (JDoc.get doc fld.name).getD (.jstr "")
  if fld.type.isArrayType then v.numElems else [v.asNum]

/-- One field's changed-value test in `Index::scrub_reindex_doc`: string
fields compare tokenized vectors, numeric/bool fields compare value
vectors. -/
def field_vals_match (tok : String → List String) (update_doc old_doc : JDoc)
    (fld : Field) : Bool :=
  if fld.type.isStringType then
    arrays_match (tokenize_doc_field tok update_doc fld)
      (tokenize_doc_field tok old_doc fld)
  else
    arrays_match (numeric_vals update_doc fld) (numeric_vals old_doc fld)

/-- Translation of `Index::scrub_reindex_doc`: walk the delete-doc; every field found in the
search schema whose update and old values match is erased from both the
delete-doc and the update-doc; all other fields are kept. Returns the
scrubbed (update_doc, del_doc). -/
def scrub_reindex_doc (tok : String → List String) (schema : List Field) :
    JDoc → JDoc → JDoc → JDoc × JDoc
  | update_doc, [], _ => (update_doc, [])
  | update_doc, (f, v) :: del_rest, old_doc =>
    match schema.find? (fun fl => fl.name = f) with
    | none =>
      let r := scrub_reindex_doc tok schema update_doc del_rest old_doc
      (r.1, (f, v) :: r.2)
    | some fld =>
      if field_vals_match tok update_doc old_doc fld then
        scrub_reindex_doc tok schema (JDoc.eraseField update_doc f) del_rest old_doc
      else
        let r := scrub_reindex_doc tok schema update_doc del_rest old_doc
        (r.1, (f, v) :: r.2)

/-- Whether `scrub_reindex_doc` classifies field `f` as unchanged: it is in
the search schema and its update/old values match. -/
def scrub_matches (tok : String → List String) (schema : List Field)
    (update_doc old_doc : JDoc) (f : String) : Bool :=
  match schema.find? (fun fl => fl.name = f) with
  | some fld => field_vals_match tok update_doc old_doc fld
  | none => false

theorem JDoc.get_eraseField (doc : JDoc) (f g : String) (h : ¬ g = f) :
    JDoc.get (JDoc.eraseField doc f) g = JDoc.get doc g := by
  induction doc with
  | nil => rfl
  | cons p ps ih =>
    unfold JDoc.eraseField at *
    by_cases hpf : p.1 = f
    · rw [List.filter_cons_of_neg (by simpa using hpf), ih, JDoc.get_cons,
        if_neg (fun hpg => h (by rw [← hpg, hpf]))]
    · rw [List.filter_cons_of_pos (by simpa using hpf), JDoc.get_cons,
        JDoc.get_cons]
      by_cases hpg : p.1 = g
      · rw [if_pos hpg, if_pos hpg]
      · rw [if_neg hpg, if_neg hpg, ih]

theorem field_vals_match_congr (tok : String → List String) (u u' old : JDoc)
    (fld : Field) (h : JDoc.get u' fld.name = JDoc.get u fld.name) :
    field_vals_match tok u' old fld = field_vals_match tok u old fld := by
  unfold field_vals_match tokenize_doc_field numeric_vals
  cases fld.type <;> simp only [h]

theorem scrub_matches_erase (tok : String → List String) (schema : List Field)
    (u old : JDoc) (f g : String) (h : ¬ g = f) :
    scrub_matches tok schema (JDoc.eraseField u f) old g =
      scrub_matches tok schema u old g := by
  unfold scrub_matches
  cases hfind : schema.find? (fun fl => fl.name = g) with
  | none => rfl
  | some fld =>
    have hname : fld.name = g := by
      have := List.find?_some hfind
      simpa using this
    exact field_vals_match_congr tok u (JDoc.eraseField u f) old fld
      (by rw [hname]; exact JDoc.get_eraseField u f g h)

/-- C7: `Index::scrub_reindex_doc` erases from both the delete-doc and the
reindex-doc exactly those delete-doc fields that are in the search schema
and whose old and new values match (tokenized vectors for string fields,
value vectors for numeric/bool fields); every other field of either document
stays, so only changed fields are removed and re-inserted and the index
entries of unchanged fields are untouched by the update. -/
theorem scrub_reindex_doc_spec (tok : String → List String) (schema : List Field)
    (update_doc del_doc old_doc : JDoc)
    (hnodup : (del_doc.map (fun p => p.1)).Nodup) :
    (scrub_reindex_doc tok schema update_doc del_doc old_doc).2 =
      del_doc.filter
        (fun p => !(scrub_matches tok schema update_doc old_doc p.1)) ∧
    (scrub_reindex_doc tok schema update_doc del_doc old_doc).1 =
      update_doc.filter
        (fun p => !(decide (p.1 ∈ del_doc.map Prod.fst) &&
          scrub_matches tok schema update_doc old_doc p.1)) := by
  induction del_doc generalizing update_doc with
  | nil =>
    refine ⟨rfl, ?_⟩
    simp [scrub_reindex_doc]
  | cons hd rest ih =>
    obtain ⟨f, v⟩ := hd
    simp only [List.map_cons, List.nodup_cons] at hnodup
    have hfnotin : f ∉ rest.map Prod.fst := hnodup.1
    cases hfind : schema.find? (fun fl => fl.name = f) with
    | none =>
      have hm : scrub_matches tok schema update_doc old_doc f = false := by
        unfold scrub_matches
        rw [hfind]
      have hr := ih update_doc hnodup.2
      simp only [scrub_reindex_doc, hfind]
      constructor
      · rw [hr.1, List.filter_cons_of_pos (by simp [hm])]
      · rw [hr.2]
        apply List.filter_congr
        intro p hp
        by_cases hpf : p.1 = f
        · simp [hpf, hm]
        · have hb : (p.1 == f) = false := by simpa using hpf
          simp [List.mem_cons, hpf, hb]
    | some fld =>
      have hmm : scrub_matches tok schema update_doc old_doc f =
          field_vals_match tok update_doc old_doc fld := by
        unfold scrub_matches
        rw [hfind]
      by_cases hmatch : field_vals_match tok update_doc old_doc fld = true
      · have hmf : scrub_matches tok schema update_doc old_doc f = true := by
          rw [hmm, hmatch]
        have ihe := ih (JDoc.eraseField update_doc f) hnodup.2
        simp only [scrub_reindex_doc, hfind, if_pos hmatch]
        constructor
        · rw [ihe.1, List.filter_cons_of_neg (by simp [hmf])]
          apply List.filter_congr
          intro p hp
          have hpf : ¬ p.1 = f := fun h =>
            hfnotin (h ▸ List.mem_map_of_mem Prod.fst hp)
          rw [scrub_matches_erase tok schema update_doc old_doc f p.1 hpf]
        · rw [ihe.2]
          have hstep : List.filter
              (fun p => !(decide (p.1 ∈ List.map Prod.fst rest) &&
                scrub_matches tok schema (JDoc.eraseField update_doc f) old_doc p.1))
              (JDoc.eraseField update_doc f) =
            List.filter
              (fun p => !(decide (p.1 ∈ List.map Prod.fst rest) &&
                scrub_matches tok schema update_doc old_doc p.1))
              (JDoc.eraseField update_doc f) := by
            apply List.filter_congr
            intro p hp
            have hp' : p ∈ List.filter (fun p => decide (p.1 ≠ f)) update_doc := hp
            have hpf : ¬ p.1 = f := by simpa using List.of_mem_filter hp'
            rw [scrub_matches_erase tok schema update_doc old_doc f p.1 hpf]
          rw [hstep,
            show JDoc.eraseField update_doc f =
              List.filter (fun p => decide (p.1 ≠ f)) update_doc from rfl,
            List.filter_filter]
          apply List.filter_congr
          intro p hp
          by_cases hpf : p.1 = f
          · simp [hpf, hmf]
          · have hb : (p.1 == f) = false := by simpa using hpf
            simp [List.mem_cons, hpf, hb]
      · have hmf : scrub_matches tok schema update_doc old_doc f = false := by
          rw [hmm]
          exact Bool.not_eq_true _ ▸ (Bool.eq_false_iff.mpr hmatch)
        have hr := ih update_doc hnodup.2
        simp only [scrub_reindex_doc, hfind, if_neg hmatch]
        constructor
        · rw [hr.1, List.filter_cons_of_pos (by simp [hmf])]
        · rw [hr.2]
          apply List.filter_congr
          intro p hp
          by_cases hpf : p.1 = f
          · simp [hpf, hmf]
          · have hb : (p.1 == f) = false := by simpa using hpf
            simp [List.mem_cons, hpf, hb]

/-- Witness for C7 at a concrete changed update: the changed field stays in
the delete-doc. -/
theorem scrub_reindex_doc_spec_witness :
    (scrub_reindex_doc (fun s => [s]) [⟨"points", .INT32, false, false⟩]
        [("points", .jnum true 10)] [("points", .jnum true 5)]
        [("points", .jnum true 5)]).2 = [("points", .jnum true 5)] := by
  have h := (scrub_reindex_doc_spec (fun s => [s])
    [⟨"points", .INT32, false, false⟩] [("points", .jnum true 10)]
    [("points", .jnum true 5)] [("points", .jnum true 5)] (by simp)).1
  rw [h]
  rfl

/-! ## C6 : compensating re-index on a failed update
(`Index::batch_memory_index`) -/

/-- Write operations of a batch record (`index_operation_t`). -/
inductive OpType where
  | CREATE
  | UPSERT
  | UPDATE
  | DELETE
deriving DecidableEq

/-- One invocation of an in-memory index mutation, recorded in invocation
order: `Index::remove(seq_id, del_doc)` or
`Index::index_in_memory(doc, seq_id, default_sorting_field, is_update)`. -/
inductive IndexOp where
  | removeDoc (seq_id : Nat) (del_doc : JDoc)
  | addDoc (seq_id : Nat) (doc : JDoc) (is_update : Bool)

/-- Final per-record state of `index_rec.indexed`. -/
inductive RecStatus where
  | skipped
  | failed (code : Nat)
  | success

/-- An `index_record` of a batch (`struct index_record`): `indexed_ok` is the
incoming `indexed.ok()` (records invalidated upstream are skipped). -/
structure BatchRecord where
  seq_id : Nat
  doc : JDoc
  old_doc : JDoc
  del_doc : JDoc
  operation : OpType
  is_update : Bool
  indexed_ok : Bool

/-- One iteration of the loop of `Index::batch_memory_index`, returning the
sequence of index mutations invoked for the record together with its final
status. `index_mem_result` abstracts the outcome of `index_in_memory`
(`none` = success, `some code` = the error it reports); in the source as
written `index_in_memory` always returns 201, so the failure branch is only
reachable through this abstraction. A failed `index_in_memory` call still
appears in the trace (it mutates before failing); on failure the scrubbed
delete-doc is re-indexed with `is_update = true` before `index_failure` is
recorded. -/
def batch_step (tok : String → List String) (schema : List Field)
    (default_sorting_field : String)
    (index_mem_result : JDoc → Nat → Bool → Option Nat)
    (irec : BatchRecord) : List IndexOp × RecStatus :=
  if !irec.indexed_ok then
    ([], .skipped)
  else if irec.operation = .DELETE then
    ([], .skipped)
  else
    match validate_index_in_memory irec.doc default_sorting_field schema
        irec.is_update with
    | .error code => ([], .failed code)
    | .ok _ =>
      let scrubbed :=
        if irec.is_update then
          scrub_reindex_doc tok schema irec.doc irec.del_doc irec.old_doc
        else
          (irec.doc, irec.del_doc)
      let pre :=
        if irec.is_update then [IndexOp.removeDoc irec.seq_id scrubbed.2] else []
      match index_mem_result scrubbed.1 irec.seq_id irec.is_update with
      | none => (pre ++ [.addDoc irec.seq_id scrubbed.1 irec.is_update], .success)
      | some code =>
        (pre ++ [.addDoc irec.seq_id scrubbed.1 irec.is_update,
          .addDoc irec.seq_id scrubbed.2 true], .failed code)

/-- C6: when an update record passes validation but its in-memory indexing
fails, `batch_memory_index` re-indexes the scrubbed pre-update delete-doc
(the old values of the changed fields) as a compensating action — the last
index mutation performed for the record — and only then reports the
per-record error, restoring the entries that the update had removed. -/
theorem batch_memory_index_failed_update (tok : String → List String)
    (schema : List Field) (dsf : String)
    (index_mem_result : JDoc → Nat → Bool → Option Nat) (irec : BatchRecord)
    (hok : irec.indexed_ok = true) (hop : ¬ irec.operation = OpType.DELETE)
    (hupd : irec.is_update = true)
    (hval : validate_index_in_memory irec.doc dsf schema true =
      Except.ok ())
    (code : Nat)
    (hfail : index_mem_result
        (scrub_reindex_doc tok schema irec.doc irec.del_doc irec.old_doc).1
        irec.seq_id true = some code) :
    batch_step tok schema dsf index_mem_result irec =
      ([.removeDoc irec.seq_id
          (scrub_reindex_doc tok schema irec.doc irec.del_doc irec.old_doc).2,
        .addDoc irec.seq_id
          (scrub_reindex_doc tok schema irec.doc irec.del_doc irec.old_doc).1 true,
        .addDoc irec.seq_id
          (scrub_reindex_doc tok schema irec.doc irec.del_doc irec.old_doc).2 true],
        .failed code) := by
  unfold batch_step
  rw [hok]
  simp only [Bool.not_true, Bool.false_eq_true, if_false, if_neg hop, hupd, hval,
    if_true, hfail]
  rfl

/-- Witness for C6: a concrete one-field update whose (abstracted) indexing
fails with code 500; the trace ends with the compensating re-index of the
delete-doc and the record reports the failure. -/
theorem batch_memory_index_failed_update_witness :
    batch_step (fun s => [s]) [⟨"points", .INT32, false, false⟩] "points"
        (fun _ _ _ => some 500)
        ⟨7, [("points", .jnum true 10)], [("points", .jnum true 5)],
          [("points", .jnum true 5)], .UPDATE, true, true⟩ =
      ([.removeDoc 7 [("points", .jnum true 5)],
        .addDoc 7 [("points", .jnum true 10)] true,
        .addDoc 7 [("points", .jnum true 5)] true], .failed 500) :=
  (batch_memory_index_failed_update (fun s => [s])
    [⟨"points", .INT32, false, false⟩] "points" (fun _ _ _ => some 500)
    ⟨7, [("points", .jnum true 10)], [("points", .jnum true 5)],
      [("points", .jnum true 5)], .UPDATE, true, true⟩
    rfl (by simp) rfl rfl 500 rfl).trans (by rfl)

/-! ## C4 : combination bounds (`Index::search_field` and
`Index::search_candidates`) -/

/-- The cost-vector decode of `Index::search_field`: token indices are
visited from last to first with `q = ldiv(q.quot, token_to_costs[i].size());
costs[i] = token_to_costs[i][q.rem]`, so the LAST token is the
least-significant digit; this helper runs over the reversed list. -/
def decode_costs_rev : List (List Nat) → Nat → List Nat
  | [], _ => []
  | costs :: restLists, n =>
    costs.getD (n % costs.length) 0 :: decode_costs_rev restLists (n / costs.length)

def decode_costs (token_to_costs : List (List Nat)) (n : Nat) : List Nat :=
  (decode_costs_rev token_to_costs.reverse n).reverse

/-- Index of the first token whose `art_fuzzy_search` at its assigned cost
returns no leaves, if any; `leaf_found tok cost` abstracts the external ART
lookup (deterministic, as the code caches results per token and cost). -/
def failing_index (leaf_found : String → Nat → Bool) (toks : List String)
    (costs : List Nat) : Option Nat :=
  (List.range toks.length).find?
    (fun i => !(leaf_found (toks.getD i "") (costs.getD i 0)))

/-- Cost removal after a zero-leaf result: `token_to_costs[i].erase(cost)`,
and when that list empties the token itself is dropped from the search. -/
def remove_cost (toks : List String) (tcs : List (List Nat)) (i c : Nat) :
    List String × List (List Nat) :=
  let newCosts := (tcs.getD i []).erase c
  if newCosts.isEmpty then (toks.eraseIdx i, tcs.eraseIdx i)
  else (toks, tcs.set i newCosts)

/-- The cost-combination loop of `Index::search_field` (stages (a)-(b) with
the `resume_typo_loop` bookkeeping): `n` runs while `n < N && n <
combination_limit` (10); a fully-leaved cost vector is handed to
`search_candidates` — recorded in the returned trace — and contributes
`hits_per_combo` results to `field_num_results`; a zero-leaf token removes
the failing cost (counted in the second component) and restarts the
enumeration at `n = 0`; the loop returns once a threshold is reached.
`fuel` bounds the iteration count. -/
def search_field_combos (leaf_found : String → Nat → Bool)
    (hits_per_combo : List Nat → Nat) (dropThr typoThr : Nat) :
    Nat → List String → List (List Nat) → Nat → Nat → List (List Nat) × Nat
  | 0, _, _, _, _ => ([], 0)
  | fuel + 1, toks, tcs, n, hits =>
    if toks.isEmpty then ([], 0)
    else if n < tcs.foldl (fun a b => a * b.length) 1 ∧ n < 10 then
      match failing_index leaf_found toks (decode_costs tcs n) with
      | none =>
        if dropThr ≤ hits + hits_per_combo (decode_costs tcs n) ∨
            typoThr ≤ hits + hits_per_combo (decode_costs tcs n) then
          ([decode_costs tcs n], 0)
        else
          let r := search_field_combos leaf_found hits_per_combo dropThr typoThr
            fuel toks tcs (n + 1) (hits + hits_per_combo (decode_costs tcs n))
          (decode_costs tcs n :: r.1, r.2)
      | some i =>
        let tt := remove_cost toks tcs i ((decode_costs tcs n).getD i 0)
        let r := search_field_combos leaf_found hits_per_combo dropThr typoThr
          fuel tt.1 tt.2 0 hits
        (r.1, r.2 + 1)
    else ([], 0)

theorem search_field_combos_zero (leaf_found : String → Nat → Bool)
    (hits_per_combo : List Nat → Nat) (dropThr typoThr : Nat)
    (toks : List String) (tcs : List (List Nat)) (n hits : Nat) :
    search_field_combos leaf_found hits_per_combo dropThr typoThr 0
      toks tcs n hits = ([], 0) := rfl

theorem search_field_combos_succ (leaf_found : String → Nat → Bool)
    (hits_per_combo : List Nat → Nat) (dropThr typoThr fuel : Nat)
    (toks : List String) (tcs : List (List Nat)) (n hits : Nat) :
    search_field_combos leaf_found hits_per_combo dropThr typoThr (fuel + 1)
        toks tcs n hits =
      if toks.isEmpty then ([], 0)
      else if n < tcs.foldl (fun a b => a * b.length) 1 ∧ n < 10 then
        match failing_index leaf_found toks (decode_costs tcs n) with
        | none =>
          if dropThr ≤ hits + hits_per_combo (decode_costs tcs n) ∨
              typoThr ≤ hits + hits_per_combo (decode_costs tcs n) then
            ([decode_costs tcs n], 0)
          else
            (decode_costs tcs n ::
              (search_field_combos leaf_found hits_per_combo dropThr typoThr fuel
                toks tcs (n + 1)
                (hits + hits_per_combo (decode_costs tcs n))).1,
              (search_field_combos leaf_found hits_per_combo dropThr typoThr fuel
                toks tcs (n + 1)
                (hits + hits_per_combo (decode_costs tcs n))).2)
        | some i =>
          ((search_field_combos leaf_found hits_per_combo dropThr typoThr fuel
              (remove_cost toks tcs i ((decode_costs tcs n).getD i 0)).1
              (remove_cost toks tcs i ((decode_costs tcs n).getD i 0)).2 0 hits).1,
            (search_field_combos leaf_found hits_per_combo dropThr typoThr fuel
              (remove_cost toks tcs i ((decode_costs tcs n).getD i 0)).1
              (remove_cost toks tcs i ((decode_costs tcs n).getD i 0)).2 0 hits).2
              + 1)
      else ([], 0) := rfl

/-- The leaf decode of `Index::next_suggestion`: token index 0 is the
least-significant digit. Leaves are identified by numeric ids here;
candidate lists are non-empty in every reachable call. -/
def decode_candidates : List (List Nat) → Nat → List Nat
  | [], _ => []
  | cands :: restLists, n =>
    cands.getD (n % cands.length) 0 :: decode_candidates restLists (n / cands.length)

/-- The combination loop of `Index::search_candidates`: `n` runs while
`n < N && n < combination_limit` with `combination_limit = 10` and `N` the
product of the per-token candidate counts; each `n` decodes one leaf per
surviving token for intersection and scoring. -/
def search_candidates_combos (token_candidates : List (List Nat)) :
    List (List Nat) :=
  (List.range (min (token_candidates.foldl (fun a b => a * b.length) 1) 10)).map
    (decode_candidates token_candidates)

/-- A concrete leaf oracle for the C4 counterexample: token `x` has no
leaves at cost 2; every other (token, cost) pair has leaves. -/
def lf0 (t : String) (c : Nat) : Bool := !(t == "x" && c == 2)

/-- C4 counterexample: on the two-token query `x y` with costs {0,1,2} each
and `x` yielding no leaves at cost 2, the cost-vector enumeration evaluates
6 vectors, fails at `(2,0)`, removes the cost and restarts, evaluating 6
more — 12 in total, exceeding the claimed bound of 10 for one invocation. -/
theorem search_field_combos_counterexample :
    (search_field_combos lf0 (fun _ => 0) 100 100 20 ["x", "y"]
        [[0, 1, 2], [0, 1, 2]] 0 0).1.length = 12 ∧
      ¬ ((search_field_combos lf0 (fun _ => 0) 100 100 20 ["x", "y"]
        [[0, 1, 2], [0, 1, 2]] 0 0).1.length ≤ 10) := by
  constructor
  · rfl
  · decide

/-- C4 (amended): each enumeration pass evaluates at most 10 cost vectors,
but a zero-leaf abandonment removes one cost and restarts the pass at
`n = 0`, so one `search_field` invocation hands `search_candidates` at most
`10 * (1 + number of removals)` cost vectors in total — possibly more than
10. For each evaluated cost vector, `search_candidates` iterates at most 10
leaf combinations. -/
theorem search_combination_bounds :
    (∀ (leaf_found : String → Nat → Bool) (hits_per_combo : List Nat → Nat)
        (dropThr typoThr fuel : Nat) (toks : List String)
        (tcs : List (List Nat)) (n hits : Nat),
      (search_field_combos leaf_found hits_per_combo dropThr typoThr fuel
          toks tcs n hits).1.length ≤
        (10 - n) + 10 * (search_field_combos leaf_found hits_per_combo dropThr
          typoThr fuel toks tcs n hits).2) ∧
    (∀ token_candidates : List (List Nat),
      (search_candidates_combos token_candidates).length ≤ 10) := by
  constructor
  · intro leaf_found hits_per_combo dropThr typoThr fuel
    induction fuel with
    | zero =>
      intro toks tcs n hits
      simp [search_field_combos_zero]
    | succ fuel ih =>
      intro toks tcs n hits
      rw [search_field_combos_succ]
      by_cases h1 : toks.isEmpty
      · simp [h1]
      · rw [if_neg h1]
        by_cases h2 : n < tcs.foldl (fun a b => a * b.length) 1 ∧ n < 10
        · rw [if_pos h2]
          cases hfi : failing_index leaf_found toks (decode_costs tcs n) with
          | none =>
            simp only [hfi]
            by_cases h3 : dropThr ≤ hits + hits_per_combo (decode_costs tcs n) ∨
                typoThr ≤ hits + hits_per_combo (decode_costs tcs n)
            · rw [if_pos h3]
              simp
              omega
            · rw [if_neg h3]
              have hrec := ih toks tcs (n + 1)
                (hits + hits_per_combo (decode_costs tcs n))
              simp only [List.length_cons]
              omega
          | some i =>
            have hrec := ih
              (remove_cost toks tcs i ((decode_costs tcs n).getD i 0)).1
              (remove_cost toks tcs i ((decode_costs tcs n).getD i 0)).2 0 hits
            simp only [hfi]
            simp at hrec ⊢
            omega
        · rw [if_neg h2]
          simp
  · intro token_candidates
    simp only [search_candidates_combos, List.length_map, List.length_range]
    omega

/-! ## C5 : wildcard search (`Index::search`, wildcard branch) -/

/-- One sort-schema entry; `Index::search` iterates the ordered sort schema
and takes the first non-optional field other than `_text_match` as the
field whose sort index enumerates all documents. -/
structure SortField where
  name : String
  optional : Bool

def text_match_field : String := "_text_match"

/-- The wildcard branch's choice of `all_records_field` ("" when the schema
has no eligible field). -/
def first_non_optional_sort_field (sort_schema : List SortField) : String :=
  match sort_schema.find?
      (fun f => !f.optional && !(f.name == text_match_field)) with
  | some f => f.name
  | none => ""

/-- One `sort_by` entry: field name and whether ascending (`Index::search`
negates the looked-up score for ASC). -/
structure SortBy where
  name : String
  asc : Bool

/-- Sort-key computation of `Index::score_results` for one `sort_by` entry:
`_text_match` takes the match score (a constant for the wildcard query,
passed in since `match_score.h` is outside `src/`); a numeric field is
looked up in its sort index, a missing id scoring the default 0; ASC
negates. -/
def sort_by_score (sidx : String → List (Nat × Int)) (text_match_score : Int)
    (sb : SortBy) (seq_id : Nat) : Int :=
  let v := if sb.name = text_match_field then text_match_score
    else (((sidx sb.name).find? (fun p => p.1 = seq_id)).map (fun p => p.2)).getD 0
  if sb.asc then -v else v

/-- The `scores[3]` array built by `Index::score_results`: one entry per
given sort field (at most three), the rest 0. -/
def score_triple (sidx : String → List (Nat × Int)) (text_match_score : Int)
    (sort_fields : List SortBy) (seq_id : Nat) : Int × Int × Int :=
  (if 0 < sort_fields.length then
      sort_by_score sidx text_match_score (sort_fields.getD 0 ⟨"", false⟩) seq_id
    else 0,
   if 1 < sort_fields.length then
      sort_by_score sidx text_match_score (sort_fields.getD 1 ⟨"", false⟩) seq_id
    else 0,
   if 2 < sort_fields.length then
      sort_by_score sidx text_match_score (sort_fields.getD 2 ⟨"", false⟩) seq_id
    else 0)

/-- A Topster entry of the wildcard branch: sequence id and its three sort
scores. -/
abbrev WKV := Nat × (Int × Int × Int)

/-- Modelled from the spec: the Topster comparison — lexicographic on
`scores[0], scores[1], scores[2]` (`topster.h` is outside `src/`; spec §4.6
fixes the comparator); `kv_ge a b` holds when `a` ranks at least as high. -/
def kv_ge (a b : WKV) : Prop :=
  b.2.1 < a.2.1 ∨ (a.2.1 = b.2.1 ∧
    (b.2.2.1 < a.2.2.1 ∨ (a.2.2.1 = b.2.2.1 ∧ b.2.2.2 ≤ a.2.2.2)))

instance kv_ge_decidable : DecidableRel kv_ge := fun a b => by
  unfold kv_ge
  infer_instance

instance kv_ge_total : IsTotal WKV kv_ge :=
  ⟨by
    intro a b
    unfold kv_ge
    omega⟩

instance kv_ge_trans : IsTrans WKV kv_ge :=
  ⟨by
    intro a b c
    unfold kv_ge
    omega⟩

/-- Modelled from the spec: `Topster::add` on a capacity-`K` heap with
`group_limit = 0` retains the `K` best entries under the comparator; the
model keeps the retained entries ordered by `kv_ge`. -/
def topster_add (K : Nat) (held : List WKV) (kv : WKV) : List WKV :=
  (held.orderedInsert kv_ge kv).take K

/-- The scored entries of the wildcard branch: one per sequence id of the
sort index of the first non-optional sort field. -/
def wildcard_scored (sort_schema : List SortField)
    (sidx : String → List (Nat × Int)) (text_match_score : Int)
    (sort_fields : List SortBy) : List WKV :=
  (sidx (first_non_optional_sort_field sort_schema)).map
    (fun p => (p.1, score_triple sidx text_match_score sort_fields p.1))

/-- The `Index::search` wildcard branch under no filters, no exclusions and no
curated ids: every id of the chosen sort index is scored and pushed into the
Topster of capacity `K`. -/
def wildcard_search (K : Nat) (sort_schema : List SortField)
    (sidx : String → List (Nat × Int)) (text_match_score : Int)
    (sort_fields : List SortBy) : List WKV :=
  ((sidx (first_non_optional_sort_field sort_schema)).map (fun p => p.1)).foldl
    (fun acc seq_id =>
      topster_add K acc (seq_id, score_triple sidx text_match_score sort_fields seq_id))
    []

theorem take_orderedInsert (K : Nat) (x : WKV) :
    ∀ l : List WKV,
      (List.orderedInsert kv_ge x (l.take K)).take K =
        (List.orderedInsert kv_ge x l).take K := by
  suffices h : ∀ (l : List WKV) (k : Nat),
      (List.orderedInsert kv_ge x (l.take k)).take k =
        (List.orderedInsert kv_ge x l).take k from fun l => h l K
  intro l
  induction l with
  | nil => intro k; simp
  | cons b bs ih =>
    intro k
    cases k with
    | zero => simp
    | succ m =>
      rw [List.take_succ_cons]
      unfold List.orderedInsert
      split_ifs with h
      · rw [List.take_succ_cons, List.take_succ_cons]
        cases m with
        | zero => simp
        | succ m' =>
          rw [List.take_succ_cons, List.take_succ_cons, List.take_take]
          simp [Nat.min_def]
      · rw [List.take_succ_cons, List.take_succ_cons, ih m]

theorem wildcard_topster_fold (K : Nat) :
    ∀ (xs acc full : List WKV), acc = full.take K →
      xs.foldl (fun a kv => topster_add K a kv) acc =
        (xs.foldl (fun a kv => List.orderedInsert kv_ge kv a) full).take K := by
  intro xs
  induction xs with
  | nil =>
    intro acc full h
    simpa using h
  | cons x xs ih =>
    intro acc full h
    simp only [List.foldl_cons]
    apply ih
    rw [topster_add, h, take_orderedInsert]

theorem foldl_orderedInsert_sorted :
    ∀ (xs acc : List WKV), acc.Sorted kv_ge →
      (xs.foldl (fun a kv => List.orderedInsert kv_ge kv a) acc).Sorted kv_ge := by
  intro xs
  induction xs with
  | nil => intro acc h; exact h
  | cons x xs ih =>
    intro acc h
    exact ih _ (List.Sorted.orderedInsert x acc h)

theorem foldl_orderedInsert_perm :
    ∀ (xs acc : List WKV),
      (xs.foldl (fun a kv => List.orderedInsert kv_ge kv a) acc).Perm (xs ++ acc) := by
  intro xs
  induction xs with
  | nil => intro acc; simp
  | cons x xs ih =>
    intro acc
    simp only [List.foldl_cons, List.cons_append]
    exact (ih _).trans
      ((List.Perm.append_left xs (List.perm_orderedInsert kv_ge x acc)).trans
        List.perm_middle)

/-- C5: wildcard search with no filters, exclusions or curated ids scores
exactly one entry per sequence id present in the sort index of the first
non-optional sort field, and the returned Topster content is the first `K`
entries of a `kv_ge`-sorted permutation of those scored entries — all live
documents, ranked by the given sort specification. -/
theorem wildcard_search_spec (K : Nat) (sort_schema : List SortField)
    (sidx : String → List (Nat × Int)) (text_match_score : Int)
    (sort_fields : List SortBy) :
    (wildcard_scored sort_schema sidx text_match_score sort_fields).map Prod.fst =
      (sidx (first_non_optional_sort_field sort_schema)).map (fun p => p.1) ∧
    wildcard_search K sort_schema sidx text_match_score sort_fields =
      ((wildcard_scored sort_schema sidx text_match_score sort_fields).foldl
        (fun a kv => List.orderedInsert kv_ge kv a) []).take K ∧
    ((wildcard_scored sort_schema sidx text_match_score sort_fields).foldl
      (fun a kv => List.orderedInsert kv_ge kv a) []).Sorted kv_ge ∧
    ((wildcard_scored sort_schema sidx text_match_score sort_fields).foldl
      (fun a kv => List.orderedInsert kv_ge kv a) []).Perm
      (wildcard_scored sort_schema sidx text_match_score sort_fields) := by
  refine ⟨?_, ?_, ?_, ?_⟩
  · simp [wildcard_scored]
  · have h := wildcard_topster_fold K
      (wildcard_scored sort_schema sidx text_match_score sort_fields) [] []
      (by simp)
    rw [← h]
    unfold wildcard_search wildcard_scored
    rw [List.foldl_map, List.foldl_map]
  · exact foldl_orderedInsert_sorted _ [] List.sorted_nil
  · simpa using foldl_orderedInsert_perm
      (wildcard_scored sort_schema sidx text_match_score sort_fields) []

/-! ## C9 continued : the facet token hash (`Index::facet_token_hash`) and
its collision with the array sentinel -/

def FieldType.isIntegerType : FieldType → Bool
  | .INT32 | .INT64 | .INT32_ARRAY | .INT64_ARRAY => true
  | _ => false

def FieldType.isFloatType : FieldType → Bool
  | .FLOAT | .FLOAT_ARRAY => true
  | _ => false

def FieldType.isBoolType : FieldType → Bool
  | .BOOL | .BOOL_ARRAY => true
  | _ => false

def decimalVal (ds : List Char) : Nat :=
  ds.foldl (fun acc c => acc * 10 + (c.toNat - 48)) 0

/-- The C `atoll` as it behaves on the canonical decimal tokens that
`std::to_string` produces for integer and bool values: an optional leading
minus, then digits. -/
def atoll (s : String) : Int :=
  match s.data with
  | '-' :: ds => -(decimalVal ds : Int)
  | ds => (decimalVal ds : Int)

/-- Translation of `Index::facet_token_hash`: a float field stores the
parsed float's bits (`std::stof` is external, abstracted by `stofBits`); an
integer or bool field stores `atoll(token)` assigned to the `uint64_t` hash
(two's complement wrap); a string field uses the external 64-bit string
hash `strHash`. -/
def facet_token_hash (strHash : String → Nat) (stofBits : String → Nat)
    (fld : Field) (token : String) : Nat :=
  if fld.type.isFloatType then stofBits token
  else if fld.type.isIntegerType || fld.type.isBoolType then
    (atoll token % (2 ^ 64 : Int)).toNat
  else strHash token

/-- Arbitrary instantiations of the two external hashing collaborators; the
integer branch decided below consults neither. -/
def strHash0 : String → Nat := fun _ => 0

def stofBits0 : String → Nat := fun _ => 0

/-- A faceted int32-array field, e.g. `{nums: int32[]}` with faceting on. -/
def int_array_field : Field := ⟨"nums", .INT32_ARRAY, true, false⟩

/-- C9 (code bug): the sentinel-count invariant fails on a faceted integer
array containing `-1`, a value that passes validation: `facet_token_hash`
sends the token "-1" through `atoll` to `0xFFFFFFFFFFFFFFFF`, which IS
`FACET_ARRAY_DELIMETER`, so the one-element array value `[-1]` yields a
facet entry holding two sentinel-valued entries where the claimed invariant
demands exactly one per element. -/
theorem facet_token_hash_sentinel_collision :
    facet_token_hash strHash0 stofBits0 int_array_field "-1" =
      FACET_ARRAY_DELIMETER ∧
      (facet_entry_of_array (facet_token_hash strHash0 stofBits0 int_array_field)
        [["-1"]]).count FACET_ARRAY_DELIMETER = 2 ∧
      ¬ ((facet_entry_of_array (facet_token_hash strHash0 stofBits0 int_array_field)
        [["-1"]]).count FACET_ARRAY_DELIMETER =
          ([["-1"]] : List (List String)).length) := by
  refine ⟨by decide, by decide, by decide⟩
